import Mathlib

/-!
Verification of the flynn-controller control plane: a shallow embedding of the
app repository (src/app.go), the HTTP client (src/unnamed/part_000) and — for
the jobs/formation subsystems whose handlers are not part of the source
sample — models built from the specification, followed by theorems settling
the spec's claims.
-/

namespace Controller

/-- Decidable equality for `Except`, so that concrete runs of the fallible
operations can be checked by `decide`. -/
instance {ε α : Type} [DecidableEq ε] [DecidableEq α] : DecidableEq (Except ε α) :=
  fun a b =>
    match a, b with
    | .ok x, .ok y =>
      if h : x = y then .isTrue (by rw [h]) else .isFalse (by simp [h])
    | .error x, .error y =>
      if h : x = y then .isTrue (by rw [h]) else .isFalse (by simp [h])
    | .ok _, .error _ => .isFalse (by simp)
    | .error _, .ok _ => .isFalse (by simp)

/-! ### App repository (embedded from src/app.go) -/

/-- A character of the class `[a-z\d]` used by the app-name pattern. -/
def isLowerAlnum (c : Char) : Bool :=
  ('a' ≤ c && c ≤ 'z') || ('0' ≤ c && c ≤ '9')

/-- Split a character list at every hyphen (the list always has one segment
more than the number of hyphens, so it is never empty). -/
def splitDash : List Char → List (List Char)
  | [] => [[]]
  | c :: cs =>
    if c = '-' then [] :: splitDash cs
    else
      match splitDash cs with
      | seg :: rest => (c :: seg) :: rest
      | [] => [[c]]

/-- Embeds `appNamePattern = ^[a-z\d]+(-[a-z\d]+)*$` (src/app.go): one or more
nonempty runs of lowercase alphanumerics joined by single hyphens, which is
exactly the split-at-hyphens criterion below. -/
def appNameMatch (s : String) : Bool :=
  (splitDash s.data).all fun seg => !seg.isEmpty && seg.all isLowerAlnum

/-- Modelled from the spec: `utils.cleanUUID` is not in src/; the spec says IDs
are "rendered without dashes" ("clean" form), so it strips the hyphens. -/
def cleanUUID (s : String) : String :=
  String.mk (s.data.filter fun c => c != '-')

/-- The `ct.App` record (fields the core reads/writes). -/
structure App where
  ID : String
  Name : String
  Protected : Bool
  CreatedAt : Nat
  UpdatedAt : Nat
  deriving Repr, DecidableEq

/-- One row of the `apps` table; `deleted_at` is the soft-delete column.
(`protectedField` stands for the source's `protected` column, a Lean keyword.) -/
structure AppRow where
  app_id : String
  name : String
  protectedField : Bool
  created_at : Nat
  updated_at : Nat
  deleted_at : Option Nat
  deriving Repr, DecidableEq

/-- `ErrNotFound` (src/app.go). -/
def ErrNotFound : String := "controller: resource not found"

/-- Embeds `AppRepo.Add` (src/app.go). The database is the list of rows of the
`apps` table; `freshID` stands for the `utils.UUID()` drawn when the app has no
ID; `now` for the row timestamps assigned by the insert. Validation failures
return before any insert; a successful insert appends the row and yields the
app with its ID in clean (dashless) form, as the source does via `cleanUUID`. -/
def AppRepo.Add (db : List AppRow) (app : App) (freshID : String) (now : Nat) :
    Except String (List AppRow × App) :=
  if app.Name = "" then
    .error "controller: app name must not be blank"
  else if app.Name.utf8ByteSize > 30 || !appNameMatch app.Name then
    .error "controller: invalid app name"
  else
    let id := if app.ID = "" then freshID else app.ID
    .ok (db ++ [{ app_id := id, name := app.Name, protectedField := app.Protected,
                  created_at := now, updated_at := now, deleted_at := none }],
         { ID := cleanUUID id, Name := app.Name, Protected := app.Protected,
           CreatedAt := now, UpdatedAt := now })

/-- A character of the class `[a-f0-9]`. -/
def isHexDigit (c : Char) : Bool :=
  ('0' ≤ c && c ≤ '9') || ('a' ≤ c && c ≤ 'f')

/-- Consume exactly `n` hex digits. -/
def takeHex : Nat → List Char → Option (List Char)
  | 0, cs => some cs
  | _ + 1, [] => none
  | n + 1, c :: cs => if isHexDigit c then takeHex n cs else none

/-- Consume one optional hyphen (the pattern's `-?`). -/
def skipDash : List Char → List Char
  | '-' :: cs => cs
  | cs => cs

/-- Embeds `idPattern = ^[a-f0-9]{8}-?([a-f0-9]{4}-?){3}[a-f0-9]{12}$`
(src/app.go). The pattern is deterministic — `-` is not a hex digit, so every
quantifier's choice is forced — and is matched by straight-line consumption. -/
def idPatternMatch (s : String) : Bool :=
  let g4 : List Char → Option (List Char) := fun cs => (takeHex 4 cs).map skipDash
  match (((takeHex 8 s.data).map skipDash).bind g4).bind g4 |>.bind g4 with
  | none => false
  | some cs =>
    match takeHex 12 cs with
    | some [] => true
    | _ => false

/-- The WHERE clause of `selectApp` (src/app.go): live (not soft-deleted) rows
only; when the identifier matches the UUID pattern the row may match on
`app_id` or `name`, otherwise on `name` alone. -/
def appQueryMatch (id : String) (r : AppRow) : Bool :=
  r.deleted_at.isNone &&
    (if idPatternMatch id then r.app_id == id || r.name == id else r.name == id)

/-- `scanApp`'s projection of a row into a `ct.App` (src/app.go): the ID is
rendered in clean form. -/
def appOfRow (r : AppRow) : App :=
  { ID := cleanUUID r.app_id, Name := r.name, Protected := r.protectedField,
    CreatedAt := r.created_at, UpdatedAt := r.updated_at }

/-- Embeds `selectApp` + `scanApp` (src/app.go): the first matching live row
(the query has `LIMIT 1`); no row (`sql.ErrNoRows`) becomes `ErrNotFound`. -/
def selectApp (db : List AppRow) (id : String) : Except String App :=
  match db.find? (appQueryMatch id) with
  | none => .error ErrNotFound
  | some r => .ok (appOfRow r)

/-- Embeds `AppRepo.Get` (src/app.go). -/
def AppRepo.Get (db : List AppRow) (id : String) : Except String App :=
  selectApp db id

/-- A decoded JSON value as held by Go's `interface\x7b\x7d`. -/
inductive GoValue where
  | bool (b : Bool)
  | str (s : String)
  | num (x : Int)
  deriving Repr, DecidableEq

/-- Go's `%T` rendering of the dynamic type (JSON numbers decode as float64). -/
def GoValue.typeName : GoValue → String
  | .bool _ => "bool"
  | .str _ => "string"
  | .num _ => "float64"

/-- Whether the dynamic value is a Go bool. -/
def GoValue.isBool : GoValue → Bool
  | .bool _ => true
  | _ => false

/-- Stands for the (driver-dependent) error of a failed `tx.Exec`. -/
def execErr : String := "controller: exec failed"

/-- The `for k, v := range data` loop of `AppRepo.Update` (src/app.go): only the
key "protected" is interpreted; a non-bool value aborts with a type-mismatch
error naming the dynamic type; a changed value rewrites the row (`execFails`
models the `tx.Exec` call failing); every other key is ignored. -/
def applyUpdates (execFails : Bool) :
    App → List AppRow → List (String × GoValue) → Except String (App × List AppRow)
  | app, rows, [] => .ok (app, rows)
  | app, rows, (k, v) :: rest =>
    if k = "protected" then
      match v with
      | .bool b =>
        if app.Protected = b then applyUpdates execFails app rows rest
        else if execFails then .error execErr
        else
          applyUpdates execFails { app with Protected := b }
            (rows.map fun r =>
              if r.app_id == app.ID then { r with protectedField := b } else r)
            rest
      | v => .error ("controller: expected bool, got " ++ v.typeName)
    else applyUpdates execFails app rows rest

/-- Embeds `AppRepo.Update` (src/app.go): begin a transaction, select the app
FOR UPDATE, apply the data map, commit; every error path rolls the transaction
back, leaving the stored rows unchanged. -/
def AppRepo.Update (db : List AppRow) (id : String) (data : List (String × GoValue))
    (execFails : Bool) : Except String App × List AppRow :=
  match selectApp db id with
  | .error e => (.error e, db)
  | .ok app =>
    match applyUpdates execFails app db data with
    | .error e => (.error e, db)
    | .ok (app2, rows2) => (.ok app2, rows2)

/-! ### HTTP client (embedded from src/unnamed/part_000) -/

/-- The client's error outcomes: `notFound` is the package's `ErrNotFound`;
`unexpectedStatus` is the `url.Error` wrapping
"controller: unexpected status %d". -/
inductive ClientError where
  | notFound
  | unexpectedStatus (op : String) (url : String) (status : Nat)
  deriving Repr, DecidableEq

/-- Embeds the response handling of `Client.send` (src/unnamed/part_000), the
path taken by PUT and POST: every non-200 status — 404 included — becomes the
generic `url.Error` embedding the status; 200 is success. -/
def Client.send (method url : String) (status : Nat) : Except ClientError Unit :=
  if status ≠ 200 then
    .error (.unexpectedStatus method url status)
  else
    .ok ()

/-- Embeds `Client.put` (src/unnamed/part_000). -/
def Client.put (url : String) (status : Nat) : Except ClientError Unit :=
  Client.send "PUT" url status

/-- Embeds `Client.post` (src/unnamed/part_000). -/
def Client.post (url : String) (status : Nat) : Except ClientError Unit :=
  Client.send "POST" url status

/-- Embeds the response handling of `Client.get` (src/unnamed/part_000):
404 maps to `ErrNotFound`; any other non-200 becomes the generic `url.Error`
embedding the status; 200 is success. -/
def Client.get (url : String) (status : Nat) : Except ClientError Unit :=
  if status ≠ 200 then
    if status = 404 then .error .notFound
    else .error (.unexpectedStatus "GET" url status)
  else .ok ()

/-! ### Jobs subsystem (the controller's jobs handlers are not in the source
sample — only their tests are — so they are modelled from the spec) -/

/-- A job as one host reports it: host-local ID, attribute tags, and the
container command of its Docker config (`none` when the job has no config). -/
structure HostJob where
  ID : String
  Attributes : List (String × String)
  Config : Option (List String)
  deriving Repr, DecidableEq

/-- The public `ct.Job` shape returned by the listing: empty `type`/`ReleaseID`
and `Cmd` stand for Go's zero values on untagged fields. -/
structure CtJob where
  ID : String
  type : String
  ReleaseID : String
  Cmd : List String
  deriving Repr, DecidableEq

/-- Modelled from the spec: the projection of one host job into the public Job
shape used by the listing handler (absent from src/): composite
`ID = hostID + "-" + jobID`, `Type`/`ReleaseID` from the attributes (zero when
untagged), `Cmd` from the host-side container command. -/
def projectJob (hostID : String) (j : HostJob) : CtJob :=
  { ID := hostID ++ "-" ++ j.ID,
    type := (j.Attributes.lookup "flynn-controller.type").getD "",
    ReleaseID := (j.Attributes.lookup "flynn-controller.release").getD "",
    Cmd := j.Config.getD [] }

/-- Modelled from the spec: the app-scoped listing handler (absent from src/)
behind `GET /apps/.../jobs`: enumerate every host's jobs via ClusterView and
keep exactly those whose attributes tag the requested app. -/
def jobList (hosts : List (String × List HostJob)) (appID : String) : List CtJob :=
  (hosts.map fun h =>
    (h.2.filter fun j =>
      j.Attributes.lookup "flynn-controller.app" == some appID).map (projectJob h.1)).flatten

/-- Split at the first hyphen: the list-level core of Go's
`strings.SplitN(id, "-", 2)`. -/
def splitFirstDash : List Char → Option (List Char × List Char)
  | [] => none
  | c :: cs =>
    if c = '-' then some ([], cs)
    else (splitFirstDash cs).map fun p => (c :: p.1, p.2)

/-- Modelled from the spec: decomposition of a composite job ID
`<hostID>-<jobID>` at the first separator (handler absent from src/); `none`
when the ID holds no separator at all. -/
def splitJobID (s : String) : Option (String × String) :=
  (splitFirstDash s.data).map fun p => (String.mk p.1, String.mk p.2)

/-- The mutable face of one host's job-control client that the kill path
touches: the set (list) of job IDs whose stop operation was invoked. -/
structure HostClientState where
  stopped : List String
  deriving Repr, DecidableEq

/-- Modelled from the spec: the kill handler (absent from src/) behind
`DELETE /apps/.../jobs/...`: decompose the composite ID; when the host is
unknown fail with `ErrNotFound` without contacting any host; otherwise invoke
that host's stop operation with the local job ID — fire and forget, success
means "stop accepted". The second component is the list of hosts contacted. -/
def killJob (hostClients : List (String × HostClientState)) (compositeID : String) :
    Except String (List (String × HostClientState)) × List String :=
  match splitJobID compositeID with
  | none => (.error ErrNotFound, [])
  | some (hostID, jobID) =>
    match hostClients.lookup hostID with
    | none => (.error ErrNotFound, [])
    | some _ =>
      (.ok (hostClients.map fun p =>
        if p.1 == hostID then (p.1, { stopped := jobID :: p.2.stopped }) else p),
       [hostID])

/-- Modelled from the spec: the job environment built by the dispatcher (absent
from src/) starts from the Release's Env and overlays the request's Env,
request-wins on key conflict; the association list's `lookup` is the effective
map. -/
def mergeEnv (releaseEnv reqEnv : List (String × String)) : List (String × String) :=
  (releaseEnv.filter fun p => (reqEnv.lookup p.1).isNone) ++ reqEnv

/-- The `ct.NewJob` run request. -/
structure NewJob where
  ReleaseID : String
  Cmd : List String
  Env : List (String × String)
  TTY : Bool
  Columns : Nat
  Lines : Nat
  deriving Repr, DecidableEq

/-- The I/O-relevant fields of the container config submitted to the host. -/
structure DockerConfig where
  Cmd : List String
  Env : List (String × String)
  AttachStdout : Bool
  AttachStderr : Bool
  AttachStdin : Bool
  StdinOnce : Bool
  OpenStdin : Bool
  Tty : Bool
  deriving Repr, DecidableEq

/-- The attach request sent to a host, its flag set spelled out as fields. -/
structure AttachReq where
  JobID : String
  flagStdout : Bool
  flagStderr : Bool
  flagStdin : Bool
  flagStream : Bool
  Height : Nat
  Width : Nat
  deriving Repr, DecidableEq

/-- Modelled from the spec: container-config construction for one run (jobs
handler absent from src/): stdout/stderr are always captured; stdin is
attached, opened and single-shot exactly for attached runs; TTY follows the
request's flag for attached runs and is off for detached ones. -/
def runJobConfig (releaseEnv : List (String × String)) (req : NewJob) (attach : Bool) :
    DockerConfig :=
  { Cmd := req.Cmd, Env := mergeEnv releaseEnv req.Env,
    AttachStdout := true, AttachStderr := true,
    AttachStdin := attach, StdinOnce := attach, OpenStdin := attach,
    Tty := attach && req.TTY }

/-- Modelled from the spec: the attach request an attached run opens against
the chosen host (jobs handler absent from src/): flags stdout, stderr, stdin
and stream; the request's terminal size forwarded unchanged (Columns as Width,
Lines as Height). The paired Bool is `wait`, always true. -/
def runJobAttach (jobID : String) (req : NewJob) : AttachReq × Bool :=
  ({ JobID := jobID, flagStdout := true, flagStderr := true, flagStdin := true,
     flagStream := true, Height := req.Lines, Width := req.Columns }, true)

/-! ### Log frames and SSE transcoding (modelled from the spec; checked
against the byte-exact fixture of TestJobLogSSE in src/jobs_test.go) -/

/-- The two log stream kinds the decoder distinguishes. -/
inductive StreamKind where
  | stdout
  | stderr
  deriving Repr, DecidableEq

/-- Wire name of a stream kind. -/
def StreamKind.name : StreamKind → String
  | .stdout => "stdout"
  | .stderr => "stderr"

/-- One step of the log-frame decoder, fuelled so the recursion is structural;
every frame consumes at least its 8 header bytes, so fuel equal to the byte
count (as `decodeFrames` supplies) is never exhausted. -/
def decodeFramesGo : Nat → List Nat → Except String (List (StreamKind × List Nat))
  | _, [] => .ok []
  | 0, _ :: _ => .error "controller: short log frame header"
  | fuel + 1, tag :: _ :: _ :: _ :: l1 :: l2 :: l3 :: l4 :: body =>
    let kind : Option StreamKind :=
      if tag = 1 then some .stdout else if tag = 2 then some .stderr else none
    match kind with
    | none => .error "controller: unknown log stream"
    | some k =>
      let len := ((l1 * 256 + l2) * 256 + l3) * 256 + l4
      if len ≤ body.length then
        (decodeFramesGo fuel (body.drop len)).map fun fs => (k, body.take len) :: fs
      else .error "controller: short log frame"
  | _ + 1, _ => .error "controller: short log frame header"

/-- Modelled from the spec: the log-frame decoder (absent from src/): each
frame is one tag byte (1 = stdout, 2 = stderr), three padding bytes, a 4-byte
big-endian length, then exactly that many payload bytes. A malformed tag or a
length overrunning the remaining stream is an explicit error; exhausting the
stream at a frame boundary is a clean end. -/
def decodeFrames (bs : List Nat) : Except String (List (StreamKind × List Nat)) :=
  decodeFramesGo bs.length bs

/-- JSON escaping of one payload byte, as text inside a JSON string. -/
def jsonEscapeByte (b : Nat) : String :=
  if b = 34 then "\\\""
  else if b = 92 then "\\\\"
  else if b = 10 then "\\n"
  else if b = 13 then "\\r"
  else if b = 9 then "\\t"
  else if b < 32 then "\\u00" ++ String.mk [Nat.digitChar (b / 16), Nat.digitChar (b % 16)]
  else String.mk [Char.ofNat b]

/-- Concatenation of a list of strings. -/
def concatStrings : List String → String
  | [] => ""
  | s :: rest => s ++ concatStrings rest

/-- JSON escaping of a payload. -/
def jsonEscapeBytes (bs : List Nat) : String :=
  concatStrings (bs.map jsonEscapeByte)

/-- Modelled from the spec: one SSE event block per decoded frame. -/
def sseBlock (k : StreamKind) (payload : List Nat) : String :=
  "data: \x7b\"stream\":\"" ++ k.name ++ "\",\"data\":\"" ++ jsonEscapeBytes payload
    ++ "\"\x7d\n\n"

/-- Modelled from the spec: the terminal block emitted on clean end-of-stream. -/
def sseEOF : String := "event: eof\ndata: \x7b\x7d\n\n"

/-- Modelled from the spec: event-stream rendering of a decoded frame sequence:
one block per frame, then the terminal eof block. -/
def sseTranscode (frames : List (StreamKind × List Nat)) : String :=
  concatStrings (frames.map fun f => sseBlock f.1 f.2) ++ sseEOF

/-- The whole event-stream pipeline: decode the raw attach bytes, then render. -/
def transcodeLog (bs : List Nat) : Except String String :=
  (decodeFrames bs).map sseTranscode

/-- The raw log bytes of the TestJobLogSSE fixture (src/jobs_test.go, base64
decoded). -/
def testLogBytes : List Nat :=
  [1, 0, 0, 0, 0, 0, 0, 19,
   76, 105, 115, 116, 101, 110, 105, 110, 103, 32, 111, 110, 32, 53, 53, 48, 48, 55, 10,
   1, 0, 0, 0, 0, 0, 0, 13,
   104, 101, 108, 108, 111, 32, 115, 116, 100, 111, 117, 116, 10,
   2, 0, 0, 0, 0, 0, 0, 13,
   104, 101, 108, 108, 111, 32, 115, 116, 100, 101, 114, 114, 10]

/-- The byte-exact event-stream output TestJobLogSSE expects
(src/jobs_test.go). -/
def expectedSSE : String :=
  "data: \x7b\"stream\":\"stdout\",\"data\":\"Listening on 55007\\n\"\x7d\n\ndata: \x7b\"stream\":\"stdout\",\"data\":\"hello stdout\\n\"\x7d\n\ndata: \x7b\"stream\":\"stderr\",\"data\":\"hello stderr\\n\"\x7d\n\nevent: eof\ndata: \x7b\x7d\n\n"

/-! ### Formation change feed (the streaming implementation is not in the
source sample — only TestFormationStreaming is — so it is modelled from the
spec's §4.1 contract: register the subscriber for live updates before running
the historical query, replay each formation's current state when it changed at
or after `since`, then de-duplicate live announcements by a per-entity
monotonic timestamp) -/

/-- One committed formation mutation: an upsert carries the process map, a
delete carries `none`; `time` is the commit timestamp. -/
structure Mutation where
  appID : String
  releaseID : String
  processes : Option (List (String × Nat))
  time : Nat
  deriving Repr, DecidableEq

/-- The (AppID, ReleaseID) identity of a mutation. -/
def Mutation.key (m : Mutation) : String × String := (m.appID, m.releaseID)

/-- Modelled from the spec: the historical replay of `StreamFormations(since)`
over a snapshot (mutations in commit order): for each formation, emit its
current state — the formation's last mutation in the snapshot, deletion
records included — exactly when that state changed at or after `since`. -/
def replay (since : Nat) : List Mutation → List Mutation
  | [] => []
  | m :: rest =>
    if rest.any fun m2 => m2.key == m.key then replay since rest
    else if since ≤ m.time then m :: replay since rest
    else replay since rest

/-- Modelled from the spec: live-mode delivery with per-entity monotonic
timestamp de-duplication: an announced mutation is forwarded exactly when it is
newer than the last event already delivered for its (AppID, ReleaseID). -/
def dedupLive : List ((String × String) × Nat) → List Mutation → List Mutation
  | _, [] => []
  | seen, m :: rest =>
    match seen.lookup m.key with
    | some t =>
      if t < m.time then m :: dedupLive ((m.key, m.time) :: seen) rest
      else dedupLive seen rest
    | none => m :: dedupLive ((m.key, m.time) :: seen) rest

/-- Modelled from the spec: one `StreamFormations(since)` subscription over a
trace. `ms` is the full mutation sequence in commit order; the subscriber
registers for live updates after `r` mutations have committed, the historical
query then snapshots after `q ≥ r` of them; the replay is emitted first,
followed by every live announcement (index ≥ r) that survives the
de-duplicator seeded with the replay. -/
def subscribeRun (ms : List Mutation) (since r q : Nat) : List Mutation :=
  let rep := replay since (ms.take q)
  rep ++ dedupLive (rep.map fun m => (m.key, m.time)) (ms.drop r)

/-! ## Theorems -/

/-! ### General helper lemmas -/

/-- A successful association-list lookup returns a stored pair. -/
theorem lookup_mem {α β : Type} [BEq α] [LawfulBEq α] {l : List (α × β)} {k : α} {v : β}
    (h : l.lookup k = some v) : (k, v) ∈ l := by
  induction l with
  | nil => cases h
  | cons p rest ih =>
    obtain ⟨a, b⟩ := p
    rw [List.lookup_cons] at h
    by_cases hk : k == a
    · simp only [hk] at h
      cases h
      simp [List.mem_cons, eq_of_beq hk]
    · simp only [Bool.not_eq_true] at hk
      simp only [hk] at h
      exact List.mem_cons_of_mem _ (ih h)

/-- `find?` splits its list at the first hit. -/
theorem find?_eq_some_split {α : Type} {p : α → Bool} {l : List α} {a : α}
    (h : l.find? p = some a) :
    ∃ pre post, l = pre ++ a :: post ∧ p a = true ∧ ∀ x ∈ pre, p x = false := by
  induction l with
  | nil => cases h
  | cons b rest ih =>
    rw [List.find?_cons] at h
    by_cases hb : p b
    · simp only [hb] at h
      cases h
      exact ⟨[], rest, rfl, hb, by simp⟩
    · simp only [Bool.not_eq_true] at hb
      simp only [hb] at h
      obtain ⟨pre, post, hl, hp, hpre⟩ := ih h
      refine ⟨b :: pre, post, by rw [hl]; rfl, hp, ?_⟩
      intro x hx
      rcases List.mem_cons.mp hx with hx | hx
      · rw [hx]; exact hb
      · exact hpre x hx

/-! ### C7 — client status mapping -/

/-- C7 counterexample: a PUT (through `Client.send`) answered with 404 yields
the generic `url.Error` embedding the status, not the not-found error value —
so "GET, PUT, and POST alike" map 404 to `ErrNotFound` fails on the code. -/
theorem client_put_404_counterexample :
    Client.put "/apps/x" 404 = .error (.unexpectedStatus "PUT" "/apps/x" 404) ∧
    Client.put "/apps/x" 404 ≠ .error .notFound := by
  constructor
  · rfl
  · decide

/-- C7 (amended): `Client.get` decodes a 200 as success, returns `ErrNotFound`
on 404, and wraps any other status in the generic upstream error embedding the
status code; PUT and POST, which go through `Client.send`, decode 200 as
success and wrap every non-200 status — 404 included — in the generic upstream
error embedding the status code. -/
theorem client_status_mapping (method url : String) (status : Nat) :
    Client.get url 200 = .ok () ∧
    Client.get url 404 = .error .notFound ∧
    (status ≠ 200 → status ≠ 404 →
      Client.get url status = .error (.unexpectedStatus "GET" url status)) ∧
    Client.send method url 200 = .ok () ∧
    (status ≠ 200 →
      Client.send method url status = .error (.unexpectedStatus method url status)) ∧
    Client.put url 200 = .ok () ∧
    (status ≠ 200 →
      Client.put url status = .error (.unexpectedStatus "PUT" url status)) ∧
    Client.post url 200 = .ok () ∧
    (status ≠ 200 →
      Client.post url status = .error (.unexpectedStatus "POST" url status)) := by
  refine ⟨by simp [Client.get], by simp [Client.get], ?_, by simp [Client.send],
    ?_, by simp [Client.put, Client.send], ?_, by simp [Client.post, Client.send], ?_⟩
  · intro h1 h2; simp [Client.get, h1, h2]
  · intro h1; simp [Client.send, h1]
  · intro h1; simp [Client.put, Client.send, h1]
  · intro h1; simp [Client.post, Client.send, h1]

/-- Witness for C7's amended theorem at concrete statuses. -/
theorem client_status_mapping_witness :
    Client.get "/x" 500 = .error (.unexpectedStatus "GET" "/x" 500) ∧
    Client.put "/x" 404 = .error (.unexpectedStatus "PUT" "/x" 404) ∧
    Client.post "/x" 404 = .error (.unexpectedStatus "POST" "/x" 404) := by
  obtain ⟨-, -, hget, -, -, -, hput, -, hpost⟩ := client_status_mapping "PUT" "/x" 500
  obtain ⟨-, -, -, -, -, -, hput4, -, hpost4⟩ := client_status_mapping "PUT" "/x" 404
  exact ⟨hget (by decide) (by decide), hput4 (by decide), hpost4 (by decide)⟩

/-! ### C8 — app-name validation in AppRepo.Add -/

/-- C8: `AppRepo.Add` returns a validation error — touching the database not at
all — exactly when the app name is blank, longer than 30 bytes, or fails the
slug pattern `[a-z\d]+(-[a-z\d]+)*`; on success it inserts one row and returns
the app with its ID (the fresh UUID when none was given) in clean, dashless
form. -/
theorem appRepo_add_validation (db : List AppRow) (app : App) (freshID : String) (now : Nat) :
    ((∃ e, AppRepo.Add db app freshID now = .error e) ↔
      (app.Name = "" ∨ 30 < app.Name.utf8ByteSize ∨ appNameMatch app.Name = false)) ∧
    (∀ db2 app2, AppRepo.Add db app freshID now = .ok (db2, app2) →
      app2.ID = cleanUUID (if app.ID = "" then freshID else app.ID) ∧
      db2 = db ++ [{ app_id := if app.ID = "" then freshID else app.ID,
                     name := app.Name, protectedField := app.Protected,
                     created_at := now, updated_at := now, deleted_at := none }]) := by
  by_cases h1 : app.Name = ""
  · constructor
    · simp [AppRepo.Add, h1]
    · intro db2 app2 h
      simp [AppRepo.Add, h1] at h
  · by_cases h2 : 30 < app.Name.utf8ByteSize ∨ appNameMatch app.Name = false
    · have hb : (decide (30 < app.Name.utf8ByteSize) || !appNameMatch app.Name) = true := by
        rcases h2 with h2 | h2 <;> simp [h2]
      constructor
      · simp [AppRepo.Add, h1, hb, h2]
      · intro db2 app2 h
        simp only [AppRepo.Add, if_neg h1] at h
        rw [if_pos] at h
        · cases h
        · simpa using hb
    · have hb : (decide (30 < app.Name.utf8ByteSize) || !appNameMatch app.Name) = false := by
        push_neg at h2
        simp [h2.1, h2.2]
      constructor
      · constructor
        · intro ⟨e, he⟩
          simp only [AppRepo.Add, if_neg h1] at he
          rw [if_neg] at he
          · cases he
          · simpa using hb
        · intro h
          exact absurd h (by push_neg at h2 ⊢; exact ⟨h1, h2.1, h2.2⟩)
      · intro db2 app2 h
        simp only [AppRepo.Add, if_neg h1] at h
        rw [if_neg] at h
        · cases h
          exact ⟨rfl, rfl⟩
        · simpa using hb

/-- Witness for C8: a malformed name is rejected; a well-formed app is inserted
with a cleaned ID. -/
theorem appRepo_add_validation_witness :
    (∃ e, AppRepo.Add [] ⟨"", "bad--name", false, 0, 0⟩ "u1" 5 = .error e) ∧
    (App.mk "u1" "my-app" false 5 5).ID =
      cleanUUID (if ("" : String) = "" then "u1" else "") := by
  constructor
  · exact (appRepo_add_validation [] ⟨"", "bad--name", false, 0, 0⟩ "u1" 5).1.mpr
      (Or.inr (Or.inr (by decide)))
  · exact ((appRepo_add_validation [] ⟨"", "my-app", false, 0, 0⟩ "u1" 5).2
      [⟨"u1", "my-app", false, 5, 5, none⟩] ⟨"u1", "my-app", false, 5, 5⟩ (by decide)).1

/-! ### C3 — environment overlay precedence -/

/-- Lookup distributes over list append, first list first. -/
theorem lookup_append {α β : Type} [BEq α] (l1 l2 : List (α × β)) (k : α) :
    (l1 ++ l2).lookup k =
      match l1.lookup k with
      | some v => some v
      | none => l2.lookup k := by
  induction l1 with
  | nil => simp
  | cons p rest ih =>
    obtain ⟨a, b⟩ := p
    rw [List.cons_append, List.lookup_cons, List.lookup_cons]
    by_cases h : (k == a) = true
    · simp [h]
    · simp only [Bool.not_eq_true] at h
      simp [h, ih]

/-- Keys the request leaves unbound look up unchanged through the filtered
release environment; keys the request binds are filtered away. -/
theorem lookup_filter_unbound (releaseEnv reqEnv : List (String × String)) (k : String) :
    (reqEnv.lookup k = none →
      (releaseEnv.filter fun p => (reqEnv.lookup p.1).isNone).lookup k =
        releaseEnv.lookup k) ∧
    (∀ v, reqEnv.lookup k = some v →
      (releaseEnv.filter fun p => (reqEnv.lookup p.1).isNone).lookup k = none) := by
  induction releaseEnv with
  | nil => simp
  | cons p rest ih =>
    obtain ⟨a, b⟩ := p
    constructor
    · intro hnone
      by_cases hk : (reqEnv.lookup a).isNone
      · rw [List.filter_cons_of_pos (by simpa using hk), List.lookup_cons, List.lookup_cons]
        by_cases hka : (k == a) = true
        · simp [hka]
        · simp only [Bool.not_eq_true] at hka
          simp [hka, ih.1 hnone]
      · have hka : (k == a) = false := by
          rw [Bool.eq_false_iff]
          intro h
          rw [← eq_of_beq h, hnone] at hk
          simp at hk
        rw [List.filter_cons_of_neg (by simpa using hk), List.lookup_cons]
        simp [hka, ih.1 hnone]
    · intro v hv
      by_cases hk : (reqEnv.lookup a).isNone
      · have hka : (k == a) = false := by
          rw [Bool.eq_false_iff]
          intro h
          rw [← eq_of_beq h, hv] at hk
          simp at hk
        rw [List.filter_cons_of_pos (by simpa using hk), List.lookup_cons]
        simp [hka, ih.2 v hv]
      · rw [List.filter_cons_of_neg (by simpa using hk)]
        exact ih.2 v hv

/-- C3: the effective job environment is the release environment overlaid with
the request environment, request-wins on every conflicting key — a key bound by
the request resolves to the request's value, a key the request leaves unbound
resolves as in the release environment — and on the spec's example the merge
yields exactly A↦1, B↦3, C↦4. -/
theorem env_overlay_precedence (releaseEnv reqEnv : List (String × String)) (k : String) :
    (∀ v, reqEnv.lookup k = some v → (mergeEnv releaseEnv reqEnv).lookup k = some v) ∧
    (reqEnv.lookup k = none → (mergeEnv releaseEnv reqEnv).lookup k = releaseEnv.lookup k) ∧
    mergeEnv [("A", "1"), ("B", "2")] [("B", "3"), ("C", "4")] =
      [("A", "1"), ("B", "3"), ("C", "4")] := by
  refine ⟨?_, ?_, by decide⟩
  · intro v hv
    rw [mergeEnv, lookup_append, (lookup_filter_unbound releaseEnv reqEnv k).2 v hv, hv]
  · intro hnone
    rw [mergeEnv, lookup_append, (lookup_filter_unbound releaseEnv reqEnv k).1 hnone]
    match h : releaseEnv.lookup k with
    | some v => simp
    | none => simp [hnone]

/-- Witness for C3 at a concrete environment pair. -/
theorem env_overlay_precedence_witness :
    (mergeEnv [("A", "1"), ("B", "2")] [("B", "3"), ("C", "4")]).lookup "B" = some "3" ∧
    (mergeEnv [("A", "1"), ("B", "2")] [("B", "3"), ("C", "4")]).lookup "A" = some "1" := by
  obtain ⟨hreq, hrel, -⟩ :=
    env_overlay_precedence [("A", "1"), ("B", "2")] [("B", "3"), ("C", "4")] "B"
  obtain ⟨-, hrelA, -⟩ :=
    env_overlay_precedence [("A", "1"), ("B", "2")] [("B", "3"), ("C", "4")] "A"
  exact ⟨hreq "3" (by decide), by rw [hrelA (by decide)]; decide⟩

/-! ### C2 — detached vs attached I/O flags -/

/-- C2: a detached run submits a config with stdout/stderr attached and stdin
neither attached, single-shot nor open; an attached run with TTY set submits
all five true, and its attach request to the host carries the stdout, stderr,
stdin and stream flags with wait = true and the request's Columns/Lines
forwarded unchanged as Width/Height. -/
theorem runJob_io_flags (releaseEnv : List (String × String)) (req : NewJob) (jobID : String) :
    (runJobConfig releaseEnv req false).AttachStdout = true ∧
    (runJobConfig releaseEnv req false).AttachStderr = true ∧
    (runJobConfig releaseEnv req false).AttachStdin = false ∧
    (runJobConfig releaseEnv req false).StdinOnce = false ∧
    (runJobConfig releaseEnv req false).OpenStdin = false ∧
    (req.TTY = true →
      (runJobConfig releaseEnv req true).AttachStdout = true ∧
      (runJobConfig releaseEnv req true).AttachStderr = true ∧
      (runJobConfig releaseEnv req true).AttachStdin = true ∧
      (runJobConfig releaseEnv req true).StdinOnce = true ∧
      (runJobConfig releaseEnv req true).OpenStdin = true ∧
      (runJobConfig releaseEnv req true).Tty = true) ∧
    runJobAttach jobID req =
      ({ JobID := jobID, flagStdout := true, flagStderr := true, flagStdin := true,
         flagStream := true, Height := req.Lines, Width := req.Columns }, true) := by
  refine ⟨rfl, rfl, rfl, rfl, rfl, ?_, rfl⟩
  intro h
  exact ⟨rfl, rfl, rfl, rfl, rfl, by simp [runJobConfig, h]⟩

/-- Witness for C2 at the TestRunJobAttached request (TTY, Columns 10,
Lines 20). -/
theorem runJob_io_flags_witness :
    (runJobConfig [] ⟨"r1", ["foo", "bar"], [], true, 10, 20⟩ true).Tty = true ∧
    runJobAttach "j1" ⟨"r1", ["foo", "bar"], [], true, 10, 20⟩ =
      ({ JobID := "j1", flagStdout := true, flagStderr := true, flagStdin := true,
         flagStream := true, Height := 20, Width := 10 }, true) := by
  obtain ⟨-, -, -, -, -, htty, hreq⟩ :=
    runJob_io_flags [] ⟨"r1", ["foo", "bar"], [], true, 10, 20⟩ "j1"
  exact ⟨(htty rfl).2.2.2.2.2, hreq⟩

/-! ### C6 — composite-ID kill semantics -/

/-- Splitting at the first hyphen of `H ++ "-" ++ J` recovers `(H, J)` when `H`
holds no hyphen. -/
theorem splitFirstDash_append (H J : List Char) (h : '-' ∉ H) :
    splitFirstDash (H ++ '-' :: J) = some (H, J) := by
  induction H with
  | nil => simp [splitFirstDash]
  | cons c cs ih =>
    have hc : ¬c = '-' := fun hcc => h (hcc ▸ List.mem_cons_self c cs)
    have hcs : '-' ∉ cs := fun hm => h (List.mem_cons_of_mem c hm)
    simp only [List.cons_append, List.append_eq, splitFirstDash, if_neg hc, ih hcs]
    rfl

/-- C6: for every composite ID `H ++ "-" ++ J` with hyphen-free host part, the
kill path decomposes it into `(H, J)`; when `H` is not a known host it fails
with `ErrNotFound` having contacted no host; when `H` is known it contacts
exactly that host and marks `J` stopped there, reporting success. -/
theorem killJob_semantics (clients : List (String × HostClientState)) (H J : String)
    (hH : '-' ∉ H.data) :
    splitJobID (H ++ "-" ++ J) = some (H, J) ∧
    (clients.lookup H = none →
      killJob clients (H ++ "-" ++ J) = (.error ErrNotFound, [])) ∧
    (∀ hc, clients.lookup H = some hc →
      killJob clients (H ++ "-" ++ J) =
        (.ok (clients.map fun p =>
          if p.1 == H then (p.1, { stopped := J :: p.2.stopped }) else p), [H])) := by
  have hdash : ("-" : String).data = ['-'] := by decide
  have hdata : (H ++ "-" ++ J).data = H.data ++ '-' :: J.data := by
    rw [String.data_append, String.data_append, hdash, List.append_assoc]
    rfl
  have hsplit : splitJobID (H ++ "-" ++ J) = some (H, J) := by
    rw [splitJobID, hdata, splitFirstDash_append H.data J.data hH]
    rfl
  refine ⟨hsplit, ?_, ?_⟩
  · intro hnone
    rw [killJob, hsplit]
    simp only [hnone]
  · intro hc hsome
    rw [killJob, hsplit]
    simp only [hsome]

/-- Witness for C6: an unknown host yields NotFound with no host contacted; a
known host gets exactly one stop call carrying the local job ID. -/
theorem killJob_semantics_witness :
    killJob [("h1", ⟨[]⟩)] ("unknownhost" ++ "-" ++ "jobid") = (.error ErrNotFound, []) ∧
    killJob [("h1", ⟨[]⟩)] ("h1" ++ "-" ++ "j1") =
      (.ok [("h1", ⟨["j1"]⟩)], ["h1"]) := by
  constructor
  · exact (killJob_semantics [("h1", ⟨[]⟩)] "unknownhost" "jobid" (by decide)).2.1 (by decide)
  · have h := (killJob_semantics [("h1", ⟨[]⟩)] "h1" "j1" (by decide)).2.2 ⟨[]⟩ (by decide)
    rw [h]
    decide

/-! ### C5 — app-scoped job listing -/

/-- C5: the app-scoped listing contains exactly the projections of jobs whose
attributes tag the requested app — jobs untagged or tagged to another app never
appear — and on the TestJobList host layout it returns exactly the two expected
jobs: composite IDs, `Type`/`ReleaseID` from the attributes, `Cmd` from the
container command. -/
theorem jobList_scoping (hosts : List (String × List HostJob)) (appID : String) :
    (∀ cj, cj ∈ jobList hosts appID ↔
      ∃ h ∈ hosts, ∃ j ∈ h.2,
        j.Attributes.lookup "flynn-controller.app" = some appID ∧ cj = projectJob h.1 j) ∧
    jobList [("host0",
      [⟨"job0", [("flynn-controller.app", "appx"), ("flynn-controller.release", "release0"),
                 ("flynn-controller.type", "web")], none⟩,
       ⟨"job1", [("flynn-controller.app", "appx")], some ["bash"]⟩,
       ⟨"job2", [("flynn-controller.app", "otherApp")], none⟩,
       ⟨"job3", [], none⟩])] "appx" =
      [⟨"host0-job0", "web", "release0", []⟩, ⟨"host0-job1", "", "", ["bash"]⟩] := by
  refine ⟨?_, by decide⟩
  intro cj
  rw [jobList, List.mem_flatten]
  constructor
  · intro ⟨l, hl, hcj⟩
    obtain ⟨h, hh, hfl⟩ := List.mem_map.mp hl
    rw [← hfl] at hcj
    obtain ⟨j, hj, hpj⟩ := List.mem_map.mp hcj
    obtain ⟨hjmem, htag⟩ := List.mem_filter.mp hj
    exact ⟨h, hh, j, hjmem, by simpa using htag, hpj.symm⟩
  · intro ⟨h, hh, j, hj, htag, hcj⟩
    refine ⟨(h.2.filter fun j2 =>
      j2.Attributes.lookup "flynn-controller.app" == some appID).map (projectJob h.1),
      List.mem_map.mpr ⟨h, hh, rfl⟩, ?_⟩
    exact List.mem_map.mpr ⟨j, List.mem_filter.mpr ⟨hj, by simpa using htag⟩, hcj.symm⟩

/-! ### C9 — Update type mismatch and rollback atomicity -/

/-- When the data map (its keys unique, as a Go map's are) binds "protected" to
a non-bool, the update loop aborts with the type-mismatch error naming the
dynamic type, whatever else the map holds. -/
theorem applyUpdates_mismatch (execFails : Bool) (v : GoValue)
    (data : List (String × GoValue)) :
    ∀ app rows, (data.map Prod.fst).Nodup → ("protected", v) ∈ data → v.isBool = false →
      applyUpdates execFails app rows data =
        .error ("controller: expected bool, got " ++ v.typeName) := by
  induction data with
  | nil => intro app rows _ hmem _; cases hmem
  | cons p rest ih =>
    intro app rows hnd hmem hv
    obtain ⟨k, w⟩ := p
    rcases List.mem_cons.mp hmem with hmem | hmem
    · injection hmem with hk hw
      subst hk
      subst hw
      cases v with
      | bool b => simp [GoValue.isBool] at hv
      | str s => simp [applyUpdates]
      | num x => simp [applyUpdates]
    · have hknd : k ∉ rest.map Prod.fst := (List.nodup_cons.mp (by simpa using hnd)).1
      have hkne : ¬k = "protected" := by
        intro hk
        exact hknd (hk ▸ List.mem_map.mpr ⟨("protected", v), hmem, rfl⟩)
      simp only [applyUpdates, if_neg hkne]
      exact ih app rows (List.nodup_cons.mp (by simpa using hnd)).2 hmem hv

/-- C9: updating with a "protected" value of the wrong dynamic type fails with
"controller: expected bool, got <type>" and leaves the table untouched; and
every failing outcome of `AppRepo.Update` — lookup failure and write failure
included — rolls the transaction back, leaving the table exactly as it was. -/
theorem appRepo_update_mismatch_atomic (db : List AppRow) (id : String)
    (data : List (String × GoValue)) (execFails : Bool) :
    (∀ v, (data.map Prod.fst).Nodup → ("protected", v) ∈ data → v.isBool = false →
      (∃ a, selectApp db id = .ok a) →
      AppRepo.Update db id data execFails =
        (.error ("controller: expected bool, got " ++ v.typeName), db)) ∧
    (∀ e, (AppRepo.Update db id data execFails).1 = .error e →
      (AppRepo.Update db id data execFails).2 = db) := by
  constructor
  · intro v hnd hmem hv ⟨a, ha⟩
    simp only [AppRepo.Update, ha,
      applyUpdates_mismatch execFails v data a db hnd hmem hv]
  · intro e he
    simp only [AppRepo.Update] at he ⊢
    cases hsel : selectApp db id with
    | error e2 => simp [hsel]
    | ok a =>
      simp only [hsel] at he ⊢
      cases happ : applyUpdates execFails a db data with
      | error e2 => simp [happ]
      | ok pr =>
        obtain ⟨a2, rows2⟩ := pr
        simp only [happ] at he
        cases he

/-- Witness for C9: a string-valued "protected" on an existing app returns the
type-mismatch error and preserves the row. -/
theorem appRepo_update_mismatch_atomic_witness :
    AppRepo.Update [⟨"id1", "n1", false, 0, 0, none⟩] "n1"
        [("x", .num 1), ("protected", .str "x")] false =
      (.error "controller: expected bool, got string",
       [⟨"id1", "n1", false, 0, 0, none⟩]) := by
  have h := (appRepo_update_mismatch_atomic [⟨"id1", "n1", false, 0, 0, none⟩] "n1"
    [("x", .num 1), ("protected", .str "x")] false).1 (.str "x")
    (by decide) (by decide) (by decide)
    ⟨⟨"id1", "n1", false, 0, 0⟩, by decide⟩
  exact h

/-! ### C10 — identifier resolution in AppRepo.Get -/

/-- C10: `AppRepo.Get` resolves an identifier as ID as well as name: it returns
`ErrNotFound` exactly when no live (not soft-deleted) row matches — on
`app_id` or `name` when the identifier fits the UUID pattern, on `name` alone
otherwise — and a successful result is the projection of the first such row,
every earlier live row being a non-match. -/
theorem appRepo_get_resolution (db : List AppRow) (id : String) :
    (AppRepo.Get db id = .error ErrNotFound ↔
      ∀ r ∈ db, r.deleted_at = none →
        (if idPatternMatch id then ¬r.app_id = id ∧ ¬r.name = id else ¬r.name = id)) ∧
    (∀ a, AppRepo.Get db id = .ok a →
      ∃ pre r post, db = pre ++ r :: post ∧ r.deleted_at = none ∧
        (if idPatternMatch id then r.app_id = id ∨ r.name = id else r.name = id) ∧
        a = appOfRow r ∧
        ∀ r2 ∈ pre, r2.deleted_at = none →
          (if idPatternMatch id then ¬r2.app_id = id ∧ ¬r2.name = id else ¬r2.name = id)) := by
  have hqm : ∀ r : AppRow, appQueryMatch id r = true ↔
      (r.deleted_at = none ∧
        (if idPatternMatch id then r.app_id = id ∨ r.name = id else r.name = id)) := by
    intro r
    by_cases hp : idPatternMatch id <;>
      simp [appQueryMatch, hp, Option.isNone_iff_eq_none]
  have hqmf : ∀ r : AppRow, appQueryMatch id r = false ↔
      (r.deleted_at = none →
        (if idPatternMatch id then ¬r.app_id = id ∧ ¬r.name = id else ¬r.name = id)) := by
    intro r
    rw [← Bool.not_eq_true, not_iff_comm.symm, iff_comm, hqm r]
    by_cases hp : idPatternMatch id <;> by_cases hd : r.deleted_at = none <;>
      · simp [hp, hd]
        try tauto
  constructor
  · rw [AppRepo.Get, selectApp]
    match hf : db.find? (appQueryMatch id) with
    | none =>
      rw [List.find?_eq_none] at hf
      simp only [true_iff]
      intro r hr
      exact (hqmf r).mp (by simpa using hf r hr)
    | some r =>
      constructor
      · intro h
        cases h
      · intro hall
        have h1 := List.find?_some hf
        have h2 := (hqmf r).mpr (hall r (List.mem_of_find?_eq_some hf))
        rw [h1] at h2
        cases h2
  · intro a ha
    rw [AppRepo.Get, selectApp] at ha
    match hf : db.find? (appQueryMatch id) with
    | none => rw [hf] at ha; cases ha
    | some r =>
      rw [hf] at ha
      cases ha
      obtain ⟨pre, post, hdb, hpr, hpre⟩ := find?_eq_some_split hf
      obtain ⟨hdel, hmatch⟩ := (hqm r).mp hpr
      exact ⟨pre, r, post, hdb, hdel, hmatch, rfl, fun r2 h2 => (hqmf r2).mp (hpre r2 h2)⟩

/-- Witness for C10: a dashless-UUID identifier resolves by app_id past a
soft-deleted row of the same name, and a missing name yields ErrNotFound. -/
theorem appRepo_get_resolution_witness :
    AppRepo.Get [⟨"aaaaaaaaaaaaaaaaaaaaaaaaaaaaaaaa", "n1", false, 0, 0, some 3⟩] "nx" =
      .error ErrNotFound := by
  exact (appRepo_get_resolution
    [⟨"aaaaaaaaaaaaaaaaaaaaaaaaaaaaaaaa", "n1", false, 0, 0, some 3⟩] "nx").1.mpr
    (by decide)

/-! ### C4 — SSE transcoding of log frames -/

/-- C4: frame boundaries map 1:1 onto event blocks — rendering a frame sequence
is one `data:` block per frame in order, then exactly one terminal
`event: eof` block — and on TestJobLogSSE's raw byte fixture the whole
decode-and-render pipeline produces the expected output byte-exactly. -/
theorem jobLog_sse_transcoding (f : StreamKind × List Nat) (fs : List (StreamKind × List Nat)) :
    sseTranscode (f :: fs) = sseBlock f.1 f.2 ++ sseTranscode fs ∧
    sseTranscode [] = sseEOF ∧
    transcodeLog testLogBytes = .ok expectedSSE := by
  refine ⟨?_, ?_, ?_⟩
  · show (sseBlock f.1 f.2 ++ concatStrings (fs.map fun g => sseBlock g.1 g.2)) ++ sseEOF = _
    rw [String.append_assoc]
    rfl
  · rfl
  · set_option maxRecDepth 10000 in decide

/-! ### C1 — formation change feed: replay-then-live continuity -/

/-- The replay is a sublist of the snapshot it replays. -/
theorem replay_sublist (since : Nat) (l : List Mutation) : (replay since l).Sublist l := by
  induction l with
  | nil => exact List.Sublist.refl []
  | cons m rest ih =>
    rw [replay]
    by_cases h1 : rest.any fun m2 => m2.key == m.key
    · rw [if_pos h1]
      exact ih.trans (List.sublist_cons_self m rest)
    · rw [if_neg h1]
      by_cases h2 : since ≤ m.time
      · rw [if_pos h2]
        exact ih.cons₂ m
      · rw [if_neg h2]
        exact ih.trans (List.sublist_cons_self m rest)

/-- Every mutation of the snapshot at or after `since` is covered by a replay
event for its formation that is at least as recent. -/
theorem replay_covers (since : Nat) (l : List Mutation)
    (hmono : l.Pairwise fun a b => a.time < b.time) :
    ∀ m ∈ l, since ≤ m.time →
      ∃ e ∈ replay since l, e.key = m.key ∧ m.time ≤ e.time := by
  induction l with
  | nil => intro m hm; cases hm
  | cons x rest ih =>
    intro m hm hsince
    obtain ⟨hx, hrest⟩ := List.pairwise_cons.mp hmono
    rcases List.mem_cons.mp hm with hm | hm
    · subst hm
      by_cases h1 : rest.any fun m2 => m2.key == m.key
      · obtain ⟨m2, hm2, hm2k⟩ := List.any_eq_true.mp h1
        have hm2k : m2.key = m.key := beq_iff_eq.mp hm2k
        have hlt : m.time < m2.time := hx m2 hm2
        obtain ⟨e, he, hek, het⟩ :=
          ih hrest m2 hm2 (le_trans hsince (le_of_lt hlt))
        rw [replay, if_pos h1]
        exact ⟨e, he, by rw [hek, hm2k], le_trans (le_of_lt hlt) het⟩
      · rw [replay, if_neg h1, if_pos hsince]
        exact ⟨m, List.mem_cons_self m _, rfl, le_refl m.time⟩
    · obtain ⟨e, he, hek, het⟩ := ih hrest m hm hsince
      rw [replay]
      by_cases h1 : rest.any fun m2 => m2.key == x.key
      · rw [if_pos h1]
        exact ⟨e, he, hek, het⟩
      · rw [if_neg h1]
        by_cases h2 : since ≤ x.time
        · rw [if_pos h2]
          exact ⟨e, List.mem_cons_of_mem x he, hek, het⟩
        · rw [if_neg h2]
          exact ⟨e, he, hek, het⟩

/-- The replay holds at most one event per formation. -/
theorem replay_keys_distinct (since : Nat) (l : List Mutation) :
    (replay since l).Pairwise fun a b => ¬a.key = b.key := by
  induction l with
  | nil => exact List.Pairwise.nil
  | cons x rest ih =>
    rw [replay]
    by_cases h1 : rest.any fun m2 => m2.key == x.key
    · rw [if_pos h1]
      exact ih
    · rw [if_neg h1]
      by_cases h2 : since ≤ x.time
      · rw [if_pos h2]
        refine List.pairwise_cons.mpr ⟨?_, ih⟩
        intro b hb hbk
        have hbmem : b ∈ rest := (replay_sublist since rest).mem hb
        rw [List.any_eq_true] at h1
        exact h1 ⟨b, hbmem, beq_iff_eq.mpr hbk.symm⟩
      · rw [if_neg h2]
        exact ih

/-- Looking a replay event's key up in the seeded de-duplication table returns
that event's timestamp. -/
theorem lookup_seed (rep : List Mutation) (e : Mutation)
    (hnd : rep.Pairwise fun a b => ¬a.key = b.key) (he : e ∈ rep) :
    (rep.map fun x => (x.key, x.time)).lookup e.key = some e.time := by
  induction rep with
  | nil => cases he
  | cons x rest ih =>
    obtain ⟨hx, hrest⟩ := List.pairwise_cons.mp hnd
    rcases List.mem_cons.mp he with he | he
    · subst he
      simp [List.lookup_cons]
    · have hne : ¬e.key = x.key := fun h => hx e he h.symm
      rw [List.map_cons, List.lookup_cons]
      have : (e.key == x.key) = false := beq_eq_false_iff_ne.mpr hne
      simp only [this]
      exact ih hrest he

/-- Announcements already covered by the table — a stored timestamp at least as
recent — are dropped without changing the table. -/
theorem dedupLive_blocked (seen : List ((String × String) × Nat)) (w rest : List Mutation)
    (hw : ∀ m ∈ w, ∃ t, seen.lookup m.key = some t ∧ m.time ≤ t) :
    dedupLive seen (w ++ rest) = dedupLive seen rest := by
  induction w with
  | nil => rfl
  | cons m w2 ih =>
    obtain ⟨t, hlook, hle⟩ := hw m (List.mem_cons_self m w2)
    rw [List.cons_append, dedupLive]
    simp only [hlook]
    rw [if_neg (Nat.not_lt.mpr hle)]
    exact ih fun m2 hm2 => hw m2 (List.mem_cons_of_mem m hm2)

/-- Announcements strictly newer than everything in the table pass the
de-duplicator untouched. -/
theorem dedupLive_passes (rest : List Mutation) :
    ∀ seen, (rest.Pairwise fun a b => a.time < b.time) →
      (∀ m ∈ rest, ∀ kt ∈ seen, kt.2 < m.time) →
      dedupLive seen rest = rest := by
  induction rest with
  | nil => intro seen _ _; rfl
  | cons m rest2 ih =>
    intro seen hmono hfresh
    obtain ⟨hm, hrest⟩ := List.pairwise_cons.mp hmono
    have hstep : ∀ m2 ∈ rest2, ∀ kt ∈ ((m.key, m.time) :: seen), kt.2 < m2.time := by
      intro m2 hm2 kt hkt
      rcases List.mem_cons.mp hkt with hkt | hkt
      · rw [hkt]
        exact hm m2 hm2
      · exact lt_trans (hfresh m (List.mem_cons_self m rest2) kt hkt) (hm m2 hm2)
    cases hlook : seen.lookup m.key with
    | none =>
      rw [dedupLive]
      simp only [hlook]
      rw [ih ((m.key, m.time) :: seen) hrest hstep]
    | some t =>
      have ht : t < m.time :=
        hfresh m (List.mem_cons_self m rest2) (m.key, t) (lookup_mem hlook)
      rw [dedupLive]
      simp only [hlook]
      rw [if_pos ht, ih ((m.key, m.time) :: seen) hrest hstep]

/-- C1 counterexample: two upserts to the same formation committed before the
subscription, both at or after `since = 0`; the replay emits only the latest
state, so the earlier mutation — commit time ≥ since — is never received,
refuting "exactly the set of mutations with commit time ≥ T, each exactly
once". -/
theorem streamFormations_counterexample :
    Mutation.mk "a" "r" (some [("web", 1)]) 1 ∈
      [Mutation.mk "a" "r" (some [("web", 1)]) 1,
       Mutation.mk "a" "r" (some [("web", 2)]) 2] ∧
    0 ≤ (Mutation.mk "a" "r" (some [("web", 1)]) 1).time ∧
    subscribeRun
      [Mutation.mk "a" "r" (some [("web", 1)]) 1,
       Mutation.mk "a" "r" (some [("web", 2)]) 2] 0 2 2 =
      [Mutation.mk "a" "r" (some [("web", 2)]) 2] ∧
    Mutation.mk "a" "r" (some [("web", 1)]) 1 ∉
      subscribeRun
        [Mutation.mk "a" "r" (some [("web", 1)]) 1,
         Mutation.mk "a" "r" (some [("web", 2)]) 2] 0 2 2 := by
  decide

/-- C1 (amended): over any commit-ordered trace with strictly increasing commit
times, a subscriber registered after `r` mutations whose historical query
snapshots after `q ≥ r` mutations — every mutation past registration
committing at or after `since` — receives exactly the replay (each formation's
current pre-snapshot state when it changed at or after `since`, deletions
included) followed by every mutation committed after the snapshot: mutations
landing in the register-to-snapshot window are delivered through the replay,
neither lost to the race nor duplicated by it, and delivery is in commit order
per (AppID, ReleaseID). -/
theorem streamFormations_replay_then_live (ms : List Mutation) (since r q : Nat)
    (hmono : ms.Pairwise fun a b => a.time < b.time) (hrq : r ≤ q)
    (hT : ∀ m ∈ ms.drop r, since ≤ m.time) :
    subscribeRun ms since r q = replay since (ms.take q) ++ ms.drop q ∧
    (subscribeRun ms since r q).Pairwise fun a b => a.key = b.key → a.time < b.time := by
  have htq : (ms.take q).Pairwise fun a b => a.time < b.time :=
    List.Pairwise.sublist (List.take_sublist q ms) hmono
  have hdq : (ms.drop q).Pairwise fun a b => a.time < b.time :=
    List.Pairwise.sublist (List.drop_sublist q ms) hmono
  have hcross : ∀ a ∈ ms.take q, ∀ b ∈ ms.drop q, a.time < b.time := by
    have := (List.pairwise_append.mp
      ((List.take_append_drop q ms).symm ▸ hmono)).2.2
    exact this
  have hsplitw : ms.drop r = (ms.drop r).take (q - r) ++ ms.drop q := by
    have h1 : (ms.drop r).drop (q - r) = ms.drop q := by
      rw [List.drop_drop, Nat.add_sub_cancel' hrq]
    rw [← h1, List.take_append_drop]
  have hwtake : ∀ m ∈ (ms.drop r).take (q - r), m ∈ ms.take q := by
    intro m hm
    have : ms.take q = ms.take r ++ (ms.drop r).take (q - r) := by
      rw [← List.take_add, Nat.add_sub_cancel' hrq]
    rw [this]
    exact List.mem_append_right _ hm
  have hblocked : ∀ m ∈ (ms.drop r).take (q - r),
      ∃ t, ((replay since (ms.take q)).map fun x => (x.key, x.time)).lookup m.key =
        some t ∧ m.time ≤ t := by
    intro m hm
    have hmq : m ∈ ms.take q := hwtake m hm
    have hmsince : since ≤ m.time := hT m (List.mem_of_mem_take hm)
    obtain ⟨e, he, hek, het⟩ := replay_covers since (ms.take q) htq m hmq hmsince
    refine ⟨e.time, ?_, het⟩
    rw [← hek]
    exact lookup_seed (replay since (ms.take q)) e
      (replay_keys_distinct since (ms.take q)) he
  have hfresh : ∀ m ∈ ms.drop q,
      ∀ kt ∈ (replay since (ms.take q)).map fun x => (x.key, x.time), kt.2 < m.time := by
    intro m hm kt hkt
    obtain ⟨x, hx, hxk⟩ := List.mem_map.mp hkt
    have hxq : x ∈ ms.take q := (replay_sublist since (ms.take q)).mem hx
    rw [← hxk]
    exact hcross x hxq m hm
  have heq : subscribeRun ms since r q = replay since (ms.take q) ++ ms.drop q := by
    rw [subscribeRun, hsplitw,
      dedupLive_blocked _ _ (ms.drop q) hblocked,
      dedupLive_passes (ms.drop q) _ hdq hfresh]
  have himp : ∀ {a b : Mutation}, a.time < b.time → (a.key = b.key → a.time < b.time) :=
    fun h _ => h
  refine ⟨heq, ?_⟩
  rw [heq]
  refine List.pairwise_append.mpr ⟨?_, ?_, ?_⟩
  · exact (List.Pairwise.sublist (replay_sublist since (ms.take q)) htq).imp himp
  · exact hdq.imp himp
  · intro a ha b hb
    intro _
    exact hcross a ((replay_sublist since (ms.take q)).mem ha) b hb

/-- Witness for C1's amended theorem: a three-mutation trace with a mutation
landing in the register-to-snapshot window is delivered exactly once, replay
first. -/
theorem streamFormations_replay_then_live_witness :
    subscribeRun
      [Mutation.mk "a" "r1" (some [("web", 1)]) 1,
       Mutation.mk "b" "r2" (some [("web", 1)]) 2,
       Mutation.mk "a" "r1" none 3] 1 1 2 =
      replay 1
        ([Mutation.mk "a" "r1" (some [("web", 1)]) 1,
          Mutation.mk "b" "r2" (some [("web", 1)]) 2,
          Mutation.mk "a" "r1" none 3].take 2) ++
        [Mutation.mk "a" "r1" (some [("web", 1)]) 1,
         Mutation.mk "b" "r2" (some [("web", 1)]) 2,
         Mutation.mk "a" "r1" none 3].drop 2 := by
  exact (streamFormations_replay_then_live
    [Mutation.mk "a" "r1" (some [("web", 1)]) 1,
     Mutation.mk "b" "r2" (some [("web", 1)]) 2,
     Mutation.mk "a" "r1" none 3] 1 1 2
    (by decide) (by decide) (by decide)).1

end Controller
